import Mathlib

/-!
Verification development for the liquidation-bot core of `fs-cli-v4`.

The TypeScript sources are shallowly embedded below:
* `constructFilterLiquidatableTraders`
  (src/liquidationBot/services/liquidationBot/liquidationBot.ts),
* the traders-checker pass (src/liquidationBot/processors/tradersChecker.ts):
  `saveActiveTraders` and the per-`CheckResult` body of
  `liquidatableTradersGenerators`,
* the traders-liquidator (src/liquidationBot/processors/tradersLiquidator.ts):
  `filterNonLiquidatableTraders`, the retry pause of `liquidationsGenerator`,
  and the wake/suspend protocol between `saveLiquidatableTraders` and the
  liquidation loop, as a small labelled transition system,
* the `start`/`stop` lifecycle of src/liquidationBot/bot.ts.

JavaScript objects are modelled as association lists with unique keys kept in
insertion order (`objSet`, `objFromEntries`, `aLookup`); JavaScript truthiness
of the stored values is made explicit at each use site.  Timestamps are `Nat`
(the value of `Date.now()`), a `null` field is `Option.none`.
-/

/-- Trader addresses are opaque strings (src/liquidationBot/types). -/
abbrev Trader := String

/-- Lookup of `obj[k]` in the association-list model of a JavaScript object:
the first entry with the key, `none` standing for `undefined`. -/
def aLookup {β : Type} : List (String × β) → String → Option β
  | [], _ => none
  | (k', v) :: rest, k => if k = k' then some v else aLookup rest k

/-- Assignment `obj[k] = v`: replaces the value of an existing key in place
(keeping insertion order) or appends a fresh key at the end, exactly as a
JavaScript object does. -/
def objSet {β : Type} : List (String × β) → String → β → List (String × β)
  | [], k, v => [(k, v)]
  | (k', v') :: rest, k, v =>
    if k' = k then (k', v) :: rest else (k', v') :: objSet rest k v

/-- Model of `Object.fromEntries`: insert every entry in order, later entries
overwriting earlier ones with the same key. -/
def objFromEntries {β : Type} (l : List (String × β)) : List (String × β) :=
  l.foldl (fun m p => objSet m p.1 p.2) []

/-- Value of the last entry of `l` carrying key `k` (the value a JavaScript
object built from the entry list `l` would hold at `k`). -/
def lookupLast {β : Type} : List (String × β) → String → Option β
  | [], _ => none
  | (k', v) :: rest, k =>
    match lookupLast rest k with
    | some w => some w
    | none => if k = k' then some v else none

/-- Modelled from the spec: the `CheckError` class of the
`@liquidationBot/errors` module, which is not among the provided sources.  Per
the spec it is an `Error` carrying the failed chunk of traders, the chunk's
start offset, the total trader count of the call, and the underlying cause;
its constructor call sites
(`new CheckError(chunkOfTraders, chunkIndex * chunkSize, traders.length,
error)`) fix the payload.  The four payload fields are own enumerable
properties of the instance, as TypeScript parameter properties are. -/
structure CheckError where
  traders : List Trader
  offset : Nat
  total : Nat
  cause : String
deriving DecidableEq, Repr

/-- Modelled from the spec: the `LiquidationError` class of
`@liquidationBot/errors` (not among the provided sources), carrying the failed
trader and the underlying cause. -/
structure LiquidationError where
  trader : Trader
  cause : String
deriving DecidableEq, Repr

/-- `LiquidatableTradersCheckResult`: one yielded element of the check filter,
either a Trader→boolean object or a `CheckError`. -/
inductive CheckResult where
  | ok (checks : List (Trader × Bool))
  | err (e : CheckError)
deriving DecidableEq, Repr

/-- Lodash `chunk`: splits a list into consecutive sublists of length `size`
(the last one possibly shorter); `chunk` with size `0` yields no chunks. -/
def chunkList {α : Type} (size : Nat) : List α → List (List α)
  | [] => []
  | x :: xs =>
    if _hsz : size = 0 then []
    else (x :: xs).take size :: chunkList size ((x :: xs).drop size)
termination_by l => l.length
decreasing_by
  simp only [List.length_drop, List.length_cons]
  omega

/-- Positional pairing of props with values, padding a missing value with the
falsy `undefined` (modelled as `false`, which every consumer in this code base
treats identically). -/
def zipWithPad : List Trader → List Bool → List (Trader × Bool)
  | [], _ => []
  | t :: ts, [] => (t, false) :: zipWithPad ts []
  | t :: ts, b :: bs => (t, b) :: zipWithPad ts bs

/-- Lodash `zipObject(props, values)`: an object mapping each prop to the
positionally matching value. -/
def zipObject (props : List Trader) (values : List Bool) : List (Trader × Bool) :=
  objFromEntries (zipWithPad props values)

/-- `constructFilterLiquidatableTraders` (liquidationBot.ts): given the
provider call `isLiquidatable` (modelled as a function from a trader batch to
either the positional boolean answers or a thrown error) and a chunk size, the
returned filter chunks the trader list and yields, per chunk in order, either
`zipObject(chunk, answers)` or a `CheckError` with the chunk, its start offset
`chunkIndex * chunkSize`, the total count and the cause. -/
def constructFilterLiquidatableTraders
    (isLiquidatable : List Trader → Except String (List Bool))
    (chunkSize : Nat) (traders : List Trader) : List CheckResult :=
  (chunkList chunkSize traders).enum.map (fun p =>
    match isLiquidatable p.2 with
    | Except.ok areLiquidatable => CheckResult.ok (zipObject p.2 areLiquidatable)
    | Except.error e => CheckResult.err ⟨p.2, p.1 * chunkSize, traders.length, e⟩)

/-! ## Traders checker (tradersChecker.ts) -/

/-- The `traders` object of the checker processor: trader → `lastCheckedAt`,
where the value is `null` (`none`) until the first check. -/
abbrev TsMap := List (Trader × Option Nat)

/-- `saveActiveTraders` (tradersChecker.ts, lines 22-36):
`Object.fromEntries(activeTraders.map((trader) => [trader, traders[trader] ?? null]))` —
the whole map is rebuilt from the fetched list, carrying over the recorded
timestamp of a still-present trader and giving `null` to a fresh one. -/
def saveActiveTraders (tsMap : TsMap) (activeTraders : List Trader) : TsMap :=
  objFromEntries
    (activeTraders.map (fun trader => (trader, (aLookup tsMap trader).getD none)))

/-- Entries the checker loop iterates over for one yielded `CheckResult`
(`Object.entries(checkedTraders)`).  The source has no `continue`/`else` after
`yield checkedTraders` in the `instanceof Error` branch, so for a `CheckError`
the loop walks the error object's own enumerable properties: the pair value is
the JavaScript truthiness of each payload field (an array and the cause object
are always truthy, a number is truthy when nonzero). -/
def checkedEntries : CheckResult → List (Trader × Bool)
  | CheckResult.ok checks => checks
  | CheckResult.err e =>
    [("traders", true), ("offset", decide (e.offset ≠ 0)),
     ("total", decide (e.total ≠ 0)), ("cause", true)]

/-- Guard `traderLastCheckedAt && traderLastCheckedAt >= checkedAt`
(tradersChecker.ts line 58): skip the entry when the recorded timestamp is
truthy (present, non-`null` and nonzero) and not older than this pass. -/
def skipGuard (last : Option (Option Nat)) (checkedAt : Nat) : Bool :=
  match last with
  | some (some n) => decide (n ≠ 0) && decide (checkedAt ≤ n)
  | _ => false

/-- Negation of `skipGuard`: the entry carries fresh data for this pass. -/
def staleAt (tsMap : TsMap) (t : Trader) (checkedAt : Nat) : Bool :=
  ! skipGuard (aLookup tsMap t) checkedAt

/-- Accumulator of the entry loop of one `CheckResult`
(tradersChecker.ts lines 53-66). -/
structure EntryAccum where
  tsMap : TsMap
  newLiquidatable : List Trader
  hadNewData : Bool
deriving DecidableEq, Repr

/-- Body of the entry loop: skip a non-stale entry, otherwise record the pass
timestamp, note `hadNewData` and push a liquidatable trader. -/
def processEntry (checkedAt : Nat) (acc : EntryAccum) (entry : Trader × Bool) :
    EntryAccum :=
  if skipGuard (aLookup acc.tsMap entry.1) checkedAt then acc
  else
    { tsMap := objSet acc.tsMap entry.1 (some checkedAt)
      newLiquidatable :=
        if entry.2 then acc.newLiquidatable ++ [entry.1] else acc.newLiquidatable
      hadNewData := true }

/-- One element yielded downstream by a checker generator: a list of newly
liquidatable traders or a `CheckError`. -/
inductive CheckerOutput where
  | traders (newLiquidatable : List Trader)
  | error (e : CheckError)
deriving DecidableEq, Repr

/-- Processing of one yielded `CheckResult` by the checker generator
(tradersChecker.ts lines 50-69): yield the value itself when it is an error,
then fold the entry loop over `Object.entries(checkedTraders)` and yield the
accumulated `newLiquidatableTraders` when `hadNewData`. -/
def processCheckResult (checkedAt : Nat) (tsMap : TsMap) (res : CheckResult) :
    TsMap × List CheckerOutput :=
  (((checkedEntries res).foldl (processEntry checkedAt) ⟨tsMap, [], false⟩).tsMap,
    (match res with
     | CheckResult.err e => [CheckerOutput.error e]
     | CheckResult.ok _ => []) ++
    (if ((checkedEntries res).foldl (processEntry checkedAt)
          ⟨tsMap, [], false⟩).hadNewData
     then [CheckerOutput.traders
       ((checkedEntries res).foldl (processEntry checkedAt)
         ⟨tsMap, [], false⟩).newLiquidatable]
     else []))

/-- One checker pass: the sequence of `CheckResult`s of a filter run, applied
in order at the shared snapshot timestamp `checkedAt`, threading the timestamp
map and concatenating the yielded outputs. -/
def runCheckerPass (checkedAt : Nat) (tsMap : TsMap) (results : List CheckResult) :
    TsMap × List CheckerOutput :=
  results.foldl
    (fun st res =>
      let r := processCheckResult checkedAt st.1 res
      (r.1, st.2 ++ r.2))
    (tsMap, [])

/-! ## Traders liquidator: re-validation of failed traders
(tradersLiquidator.ts, `filterNonLiquidatableTraders`, lines 85-133)

Every provider runs an async closure that streams its pass's `CheckResult`s
into the shared mutable state as they arrive: a `CheckError` is pushed onto
`liquidatableChecksErrors`, a successful chunk result deletes its
reported-liquidatable traders from the shared `nonLiquidatableTraders` set and
marks the provider's local `gotSomeNonErrorResults` flag — also while other
providers are still mid-pass.  When a provider's stream finishes, its `.then`
increments `processed` and resolves the shared promise when every provider is
processed or that provider got some non-error result.  The model serializes
one execution as a list of `FilterEvent`s — chunk arrivals and stream
completions in wall-clock order — and `runRace` consumes them until the
resolution point: every event before it (from any provider, settled or still
in flight) is incorporated into the returned decision; the events still
pending at resolution are returned unconsumed, modelling the best-effort
results that arrive after the decision is taken. -/

/-- Shared state of one `filterNonLiquidatableTraders` call: the surviving
`nonLiquidatableTraders` set, the collected `liquidatableChecksErrors`, the
providers whose local `gotSomeNonErrorResults` flag is set, and the
`processed` counter. -/
structure RaceState where
  nonLiquidatable : List Trader
  checkErrors : List CheckError
  gotOk : List Nat
  processed : Nat
deriving DecidableEq, Repr

/-- One scheduler event of a `filterNonLiquidatableTraders` execution: a chunk
result of provider `provider` arriving from its stream, or that provider's
stream completing (its `.then` callback running). -/
inductive FilterEvent where
  | arrive (provider : Nat) (r : CheckResult)
  | settle (provider : Nat)
deriving DecidableEq, Repr

/-- Does an ok-result object report trader `t` liquidatable
(`pickBy(Boolean)` keeps `t` exactly when its value is truthy)? -/
def reportsTrue (checks : List (Trader × Bool)) (t : Trader) : Bool :=
  decide (aLookup checks t = some true)

/-- Arrival of one streamed `CheckResult` from provider `i`
(tradersLiquidator.ts lines 102-114): push a `CheckError`, or delete every
trader the object reports liquidatable from `nonLiquidatableTraders` and set
the provider's `gotSomeNonErrorResults` flag. -/
def applyChunk (st : RaceState) (i : Nat) (r : CheckResult) : RaceState :=
  match r with
  | CheckResult.err e => { st with checkErrors := st.checkErrors ++ [e] }
  | CheckResult.ok checks =>
    { st with
      nonLiquidatable := st.nonLiquidatable.filter (fun t => ! reportsTrue checks t)
      gotOk := if i ∈ st.gotOk then st.gotOk else st.gotOk ++ [i] }

/-- Effect of one event on the shared state: a chunk arrival is `applyChunk`,
a stream completion increments `processed` (lines 116-118). -/
def applyEvent (st : RaceState) (ev : FilterEvent) : RaceState :=
  match ev with
  | FilterEvent.arrive i r => applyChunk st i r
  | FilterEvent.settle _ => { st with processed := st.processed + 1 }

/-- The completion protocol (lines 91-127): consume events in order; at a
`settle` of provider `i`, after incrementing `processed`, resolve the shared
promise when every provider is processed (`allProcessed`) or provider `i` got
some non-error result.  Returns the decision state at resolution together with
the events still pending at that point, which are not incorporated into the
decision. -/
def runRace (numProviders : Nat) :
    List FilterEvent → RaceState → RaceState × List FilterEvent
  | [], st => (st, [])
  | FilterEvent.arrive i r :: rest, st =>
    runRace numProviders rest (applyChunk st i r)
  | FilterEvent.settle i :: rest, st =>
    if st.processed + 1 = numProviders ∨ i ∈ st.gotOk
    then ({ st with processed := st.processed + 1 }, rest)
    else runRace numProviders rest { st with processed := st.processed + 1 }

/-- `filterNonLiquidatableTraders(traders, filters)`: starts from
`new Set(traders)`, no errors, no flags, `processed = 0`, and returns the
decision state at the resolution point of the execution `events`. -/
def filterNonLiquidatableTraders (traders : List Trader) (numProviders : Nat)
    (events : List FilterEvent) : RaceState :=
  (runRace numProviders events ⟨traders, [], [], 0⟩).1

/-- Number of events of an execution incorporated before the promise of
`filterNonLiquidatableTraders` resolves: everything up to and including the
first `settle` of a provider with some non-error result arrived, or the
`numProviders`-th `settle`; the whole execution when no such settle occurs. -/
def incorporatedCount (numProviders : Nat) : List FilterEvent → RaceState → Nat
  | [], _ => 0
  | FilterEvent.arrive i r :: rest, st =>
    1 + incorporatedCount numProviders rest (applyChunk st i r)
  | FilterEvent.settle i :: rest, st =>
    1 + (if st.processed + 1 = numProviders ∨ i ∈ st.gotOk then 0
         else incorporatedCount numProviders rest
           { st with processed := st.processed + 1 })

/-- Does an event report trader `t` liquidatable (a successful chunk result
whose object holds `true` at `t`)? -/
def eventReportsTrue (ev : FilterEvent) (t : Trader) : Bool :=
  match ev with
  | FilterEvent.arrive _ (CheckResult.ok checks) => reportsTrue checks t
  | FilterEvent.arrive _ (CheckResult.err _) => false
  | FilterEvent.settle _ => false

/-- Definition following the spec sentence for claim C6, to be compared with
the behaviour of `runRace`: resolution at the first provider to finish a
full, error-free pass (a `settle` of a provider with no error chunk), else
once every provider has finished; the arguments thread the providers seen to
err and the number settled so far. -/
def specIncorporatedCount (numProviders : Nat) :
    List FilterEvent → List Nat → Nat → Nat
  | [], _, _ => 0
  | FilterEvent.arrive i r :: rest, errored, settled =>
    1 + specIncorporatedCount numProviders rest
      (match r with
       | CheckResult.err _ => if i ∈ errored then errored else errored ++ [i]
       | CheckResult.ok _ => errored) settled
  | FilterEvent.settle i :: rest, errored, settled =>
    1 + (if i ∉ errored ∨ settled + 1 = numProviders then 0
         else specIncorporatedCount numProviders rest errored (settled + 1))

/-- Statement of the resolution rule at position `j` of an execution: the
promise resolves right after event `j` exactly when that event is the
completion of some provider `i`'s stream and, in the shared state reached by
the first `j` events, this settle makes every provider processed or provider
`i` has received at least one non-error chunk result. -/
def resolvesAfter (numProviders : Nat) (events : List FilterEvent)
    (st : RaceState) (j : Nat) : Prop :=
  match events[j]? with
  | some (FilterEvent.settle i) =>
    ((events.take j).foldl applyEvent st).processed + 1 = numProviders ∨
      i ∈ ((events.take j).foldl applyEvent st).gotOk
  | some (FilterEvent.arrive _ _) => False
  | none => False

/-- The caller's loop `nonLiquidatableTraders.forEach((t) =>
liquidatableTraders.delete(t))` (tradersLiquidator.ts lines 76-78). -/
def removeNonLiquidatable (liquidatable : List Trader) (nonLiquidatable : List Trader) :
    List Trader :=
  liquidatable.filter (fun t => decide (t ∉ nonLiquidatable))

/-! ## Traders liquidator: retry pause (tradersLiquidator.ts lines 58-62) -/

/-- Delay the liquidation loop requests from `setTimeout` of
`node:timers/promises` after yielding a cycle's results: the code runs
`await setTimeout(retryIntervalSec)` only when `liquidationsErrors.length` is
nonzero, passing the configured value itself as the delay in milliseconds. -/
def liquidatorPauseRequestMs (retryIntervalSec : Nat)
    (liquidationsErrors : List LiquidationError) : Option Nat :=
  if liquidationsErrors.length ≠ 0 then some retryIntervalSec else none

/-- Delay the checker loop requests between passes
(tradersChecker.ts line 71): `setTimeout(reCheckIntervalSec * 1_000)`. -/
def checkerPauseRequestMs (reCheckIntervalSec : Nat) : Nat :=
  reCheckIntervalSec * 1000

/-! ## Traders liquidator: wake/suspend protocol
(tradersLiquidator.ts, `saveLiquidatableTraders` and `liquidationsGenerator`) -/

/-- Position of the liquidation loop between suspension points. -/
inductive LoopPC where
  | atLoopTop
  | suspended
  | postWake
  | inFlight (batch : List Trader)
deriving DecidableEq, Repr

/-- Shared state of the liquidator processor: the `liquidatableTraders` set
(as an insertion-ordered duplicate-free list) and the loop position. -/
structure LiqLoopState where
  liquidatable : List Trader
  pc : LoopPC
deriving DecidableEq, Repr

/-- `Set.add` for every incoming trader, in order. -/
def setAddAll (s : List Trader) (batch : List Trader) : List Trader :=
  batch.foldl (fun acc t => if t ∈ acc then acc else acc ++ [t]) s

/-- `saveLiquidatableTraders` (lines 30-42): union the written batch into the
set and, when the set is non-empty, emit `gotLiquidatableTraders` — which
wakes the loop exactly when it is suspended on `once`. -/
def saveLiquidatableTraders (s : LiqLoopState) (incoming : List Trader) :
    LiqLoopState :=
  let liq := setAddAll s.liquidatable incoming
  { liquidatable := liq
    pc := if s.pc = LoopPC.suspended ∧ liq ≠ [] then LoopPC.postWake else s.pc }

/-- Small-step semantics of the liquidation loop (lines 45-56) interleaved
with writes.  The label carries the batch of a `exchangeService.liquidate`
call, the only observable this claim needs.  From the loop top the code checks
`!liquidatableTraders.size` and either suspends on `once` or calls `liquidate`
with a spread of the set; a woken loop resumes after the `await` and calls
`liquidate` without re-checking the guard.  All removals from the set
(successful liquidations and confirmed non-liquidatable traders) happen in the
loop itself after the call returns. -/
inductive LiqStep : LiqLoopState → Option (List Trader) → LiqLoopState → Prop where
  | write (s : LiqLoopState) (incoming : List Trader) :
      LiqStep s none (saveLiquidatableTraders s incoming)
  | loopSuspend (s : LiqLoopState) (hpc : s.pc = LoopPC.atLoopTop)
      (hempty : s.liquidatable = []) :
      LiqStep s none { s with pc := LoopPC.suspended }
  | loopFire (s : LiqLoopState) (hpc : s.pc = LoopPC.atLoopTop)
      (hne : s.liquidatable ≠ []) :
      LiqStep s (some s.liquidatable) { s with pc := LoopPC.inFlight s.liquidatable }
  | loopFireWoken (s : LiqLoopState) (hpc : s.pc = LoopPC.postWake) :
      LiqStep s (some s.liquidatable) { s with pc := LoopPC.inFlight s.liquidatable }
  | loopFinish (s : LiqLoopState) (batch removed : List Trader)
      (hpc : s.pc = LoopPC.inFlight batch) :
      LiqStep s none
        { liquidatable := s.liquidatable.filter (fun t => decide (t ∉ removed))
          pc := LoopPC.atLoopTop }

/-- States reachable from the processor's start: empty set, loop at its top. -/
inductive LiqReachable : LiqLoopState → Prop where
  | init : LiqReachable ⟨[], LoopPC.atLoopTop⟩
  | step {s s' : LiqLoopState} {ev : Option (List Trader)} :
      LiqReachable s → LiqStep s ev s' → LiqReachable s'

/-! ## Bot orchestrator lifecycle (bot.ts) -/

/-- How the pipeline promise of a running session settles once cancellation is
requested or an error escapes a stage. -/
inductive PipelineOutcome where
  | aborted
  | failed (err : String)
deriving DecidableEq, Repr

/-- Module-level state of bot.ts: whether `isRunning` holds a session promise,
and whether the session's `botAbortController` signal has been triggered
(a freshly constructed controller is untriggered). -/
structure BotModuleState where
  running : Bool
  abortRequested : Bool
deriving DecidableEq, Repr

/-- Events of the published stream this model needs. -/
inductive BotEvent where
  | botStopped
deriving DecidableEq, Repr

/-- Message of the error thrown by `start` when a session is running. -/
def startAlreadyRunningMsg : String :=
  "Cannot start liquidation bot - it is already running"

/-- Message of the error thrown by `stop` when no session is running. -/
def stopNotRunningMsg : String :=
  "Cannot stop liquidation bot - it is not running"

/-- `start(...)` (bot.ts lines 84-137): throw when `isRunning`, otherwise
construct a fresh `AbortController` and store the running pipeline. -/
def startBot (s : BotModuleState) : Except String BotModuleState :=
  if s.running then Except.error startAlreadyRunningMsg
  else Except.ok { running := true, abortRequested := false }

/-- The `.catch` attached to the pipeline (bot.ts lines 128-136): an
`ABORT_ERR` is swallowed, emitting `botStopped` and detaching every listener
(the returned flag); any other error is rethrown. -/
def pipelineSettle : PipelineOutcome → Except String (List BotEvent × Bool)
  | PipelineOutcome.aborted => Except.ok ([BotEvent.botStopped], true)
  | PipelineOutcome.failed e => Except.error e

/-- `stop()` (bot.ts lines 147-154): throw when not running, otherwise abort
the controller, await the caught pipeline promise and clear `isRunning`.  The
promise's value is `pipelineSettle` of the pipeline outcome: the abort path
resolves (after reporting `botStopped` and detaching listeners) and `stop`
returns the idle state; a rethrown pipeline error propagates out of `stop`. -/
def stopBot (s : BotModuleState) (outcome : PipelineOutcome) :
    Except String (BotModuleState × List BotEvent × Bool) :=
  if !s.running then Except.error stopNotRunningMsg
  else
    match pipelineSettle outcome with
    | Except.ok (evs, detached) =>
      Except.ok ({ running := false, abortRequested := true }, evs, detached)
    | Except.error e => Except.error e

/-! ## Lemmas on the JavaScript object model -/

theorem aLookup_objSet {β : Type} :
    ∀ (m : List (String × β)) (k : String) (v : β) (k' : String),
      aLookup (objSet m k v) k' = if k' = k then some v else aLookup m k'
  | [], k, v, k' => by
    simp [objSet, aLookup]
  | (k0, v0) :: rest, k, v, k' => by
    by_cases h0 : k0 = k
    · subst h0
      by_cases h1 : k' = k0 <;> simp [objSet, aLookup, h1]
    · simp only [objSet, if_neg h0]
      by_cases h1 : k' = k0
      · subst h1
        simp [aLookup, h0]
      · simp [aLookup, h1, aLookup_objSet rest k v k']

theorem aLookup_foldl_objSet {β : Type} :
    ∀ (l : List (String × β)) (m : List (String × β)) (k : String),
      aLookup (l.foldl (fun acc p => objSet acc p.1 p.2) m) k =
        match lookupLast l k with
        | some w => some w
        | none => aLookup m k
  | [], m, k => by simp [lookupLast]
  | (k0, v0) :: rest, m, k => by
    simp only [List.foldl_cons, lookupLast]
    rw [aLookup_foldl_objSet rest (objSet m k0 v0) k]
    cases hrest : lookupLast rest k with
    | some w => simp
    | none =>
      simp only []
      rw [aLookup_objSet]
      by_cases hk : k = k0 <;> simp [hk]

theorem aLookup_objFromEntries {β : Type} (l : List (String × β)) (k : String) :
    aLookup (objFromEntries l) k = lookupLast l k := by
  unfold objFromEntries
  rw [aLookup_foldl_objSet l [] k]
  cases h : lookupLast l k <;> simp [aLookup]

theorem lookupLast_isSome {β : Type} :
    ∀ (l : List (String × β)) (k : String),
      (lookupLast l k).isSome = true ↔ k ∈ l.map Prod.fst
  | [], k => by simp [lookupLast]
  | (k0, v0) :: rest, k => by
    simp only [lookupLast, List.map_cons, List.mem_cons]
    cases hrest : lookupLast rest k with
    | some w =>
      have : k ∈ rest.map Prod.fst := by
        rw [← lookupLast_isSome rest k, hrest]; rfl
      simp [this]
    | none =>
      have : ¬ k ∈ rest.map Prod.fst := by
        rw [← lookupLast_isSome rest k, hrest]; simp
      by_cases hk : k = k0 <;> simp [hk, this]

theorem lookupLast_map_fun {β : Type} (f : String → β) :
    ∀ (props : List String) (k : String),
      lookupLast (props.map (fun t => (t, f t))) k =
        if k ∈ props then some (f k) else none
  | [], k => by simp [lookupLast]
  | a :: rest, k => by
    simp only [List.map_cons, lookupLast, lookupLast_map_fun f rest k]
    by_cases hmem : k ∈ rest
    · simp [hmem]
    · by_cases hk : k = a
      · subst hk; simp [hmem]
      · simp [hmem, hk]

theorem zipWithPad_map_fst :
    ∀ (props : List Trader) (values : List Bool),
      (zipWithPad props values).map Prod.fst = props
  | [], _ => by simp [zipWithPad]
  | t :: ts, [] => by simp [zipWithPad, zipWithPad_map_fst ts []]
  | t :: ts, b :: bs => by simp [zipWithPad, zipWithPad_map_fst ts bs]

theorem aLookup_zipObject_isSome (props : List Trader) (values : List Bool)
    (t : Trader) :
    (aLookup (zipObject props values) t).isSome = true ↔ t ∈ props := by
  unfold zipObject
  rw [aLookup_objFromEntries, lookupLast_isSome, zipWithPad_map_fst]

/-! ## Lemmas on `chunkList` -/

theorem chunkList_nil {α : Type} (size : Nat) : chunkList size ([] : List α) = [] := by
  rw [chunkList]

theorem chunkList_cons {α : Type} (size : Nat) (hs : 0 < size) (x : α) (xs : List α) :
    chunkList size (x :: xs) =
      (x :: xs).take size :: chunkList size ((x :: xs).drop size) := by
  rw [chunkList]
  simp [Nat.pos_iff_ne_zero.mp hs]

theorem chunkList_getElem? {α : Type} (size : Nat) (hs : 0 < size) :
    ∀ (i : Nat) (l : List α),
      (chunkList size l)[i]? =
        if l.length ≤ i * size then none
        else some ((l.drop (i * size)).take size) := by
  intro i
  induction i with
  | zero =>
    intro l
    cases l with
    | nil => simp [chunkList_nil]
    | cons x xs =>
      rw [chunkList_cons size hs]
      simp
  | succ n ih =>
    intro l
    cases l with
    | nil => simp [chunkList_nil]
    | cons x xs =>
      rw [chunkList_cons size hs]
      simp only [List.getElem?_cons_succ]
      rw [ih ((x :: xs).drop size)]
      rw [List.length_drop, List.drop_drop, List.length_cons]
      have hmul : (n + 1) * size = n * size + size := Nat.succ_mul n size
      rw [hmul]
      generalize n * size = m
      by_cases hc : xs.length + 1 - size ≤ m
      · rw [if_pos hc, if_pos (by omega)]
      · rw [if_neg hc, if_neg (by omega)]
        rw [Nat.add_comm m size]

theorem chunkList_length {α : Type} (size : Nat) (hs : 0 < size) :
    ∀ l : List α, (chunkList size l).length = (l.length + size - 1) / size
  | [] => by
    rw [chunkList_nil]
    have h0 : ([] : List α).length + size - 1 = size - 1 := by simp
    rw [h0, Nat.div_eq_of_lt (by omega)]
    rfl
  | x :: xs => by
    rw [chunkList_cons size hs]
    rw [List.length_cons, chunkList_length size hs ((x :: xs).drop size)]
    rw [List.length_drop, List.length_cons]
    have hrhs : xs.length + 1 + size - 1 = xs.length + size := by omega
    rw [hrhs, Nat.add_div_right _ hs]
    by_cases hc : size ≤ xs.length + 1
    · have h1 : xs.length + 1 - size + size - 1 = xs.length := by omega
      rw [h1]
    · have h1 : xs.length + 1 - size + size - 1 = size - 1 := by omega
      rw [h1, Nat.div_eq_of_lt (by omega), Nat.div_eq_of_lt (by omega)]
termination_by l => l.length
decreasing_by
  simp only [List.length_drop, List.length_cons]
  omega

/-- A position strictly below the chunk count addresses a nonempty slice. -/
theorem lt_chunkCount_mul_lt (chunkSize len i : Nat) (hcs : 0 < chunkSize)
    (hi : i < (len + chunkSize - 1) / chunkSize) : i * chunkSize < len := by
  have h1 : (i + 1) * chunkSize ≤ ((len + chunkSize - 1) / chunkSize) * chunkSize :=
    Nat.mul_le_mul_right chunkSize hi
  have h2 : ((len + chunkSize - 1) / chunkSize) * chunkSize ≤ len + chunkSize - 1 :=
    Nat.div_mul_le_self _ _
  have h3 : (i + 1) * chunkSize = i * chunkSize + chunkSize := Nat.succ_mul i chunkSize
  generalize hm : i * chunkSize = m at h1 h3
  omega

/-- One result of the check filter, at position `i`. -/
theorem constructFilter_getElem? (isLiquidatable : List Trader → Except String (List Bool))
    (chunkSize : Nat) (traders : List Trader) (hcs : 0 < chunkSize) (i : Nat)
    (hi : i < (constructFilterLiquidatableTraders isLiquidatable chunkSize traders).length) :
    (constructFilterLiquidatableTraders isLiquidatable chunkSize traders)[i]? =
      some (match isLiquidatable ((traders.drop (i * chunkSize)).take chunkSize) with
        | Except.ok areLiquidatable =>
          CheckResult.ok (zipObject ((traders.drop (i * chunkSize)).take chunkSize) areLiquidatable)
        | Except.error e =>
          CheckResult.err
            ⟨(traders.drop (i * chunkSize)).take chunkSize, i * chunkSize, traders.length, e⟩) := by
  have hlen : (constructFilterLiquidatableTraders isLiquidatable chunkSize traders).length =
      (traders.length + chunkSize - 1) / chunkSize := by
    unfold constructFilterLiquidatableTraders
    rw [List.length_map, List.enum_length, chunkList_length chunkSize hcs]
  have hmul : i * chunkSize < traders.length :=
    lt_chunkCount_mul_lt chunkSize traders.length i hcs (hlen ▸ hi)
  have hidx : (chunkList chunkSize traders)[i]? =
      some ((traders.drop (i * chunkSize)).take chunkSize) := by
    rw [chunkList_getElem? chunkSize hcs i traders, if_neg (by omega)]
  unfold constructFilterLiquidatableTraders
  rw [List.getElem?_map, List.getElem?_enum, hidx]
  rfl

/-- C2: for every trader list and positive chunk size, the check filter yields
exactly one result per consecutive chunk, in chunk order; a successful chunk
yields an object whose keys are exactly that chunk's traders; a failed chunk
yields a `CheckError` carrying the chunk, the start offset
`chunkIndex * chunkSize`, the total trader count and the cause; and a chunk's
result depends only on the provider's answer for that chunk, so one chunk's
failure never changes the result yielded for another chunk. -/
theorem checkFilterChunking
    (isLiquidatable : List Trader → Except String (List Bool))
    (chunkSize : Nat) (traders : List Trader) (hcs : 0 < chunkSize) :
    (constructFilterLiquidatableTraders isLiquidatable chunkSize traders).length =
        (traders.length + chunkSize - 1) / chunkSize
  ∧ (∀ i,
      i < (constructFilterLiquidatableTraders isLiquidatable chunkSize traders).length →
      (match isLiquidatable ((traders.drop (i * chunkSize)).take chunkSize) with
       | Except.ok _ =>
         ∃ m,
           (constructFilterLiquidatableTraders isLiquidatable chunkSize traders)[i]? =
               some (CheckResult.ok m) ∧
             ∀ t, (aLookup m t).isSome = true ↔
               t ∈ (traders.drop (i * chunkSize)).take chunkSize
       | Except.error c =>
         (constructFilterLiquidatableTraders isLiquidatable chunkSize traders)[i]? =
           some (CheckResult.err
             ⟨(traders.drop (i * chunkSize)).take chunkSize, i * chunkSize,
              traders.length, c⟩)))
  ∧ (∀ (isLiquidatable2 : List Trader → Except String (List Bool)) i,
      i < (constructFilterLiquidatableTraders isLiquidatable chunkSize traders).length →
      isLiquidatable ((traders.drop (i * chunkSize)).take chunkSize) =
        isLiquidatable2 ((traders.drop (i * chunkSize)).take chunkSize) →
      (constructFilterLiquidatableTraders isLiquidatable chunkSize traders)[i]? =
        (constructFilterLiquidatableTraders isLiquidatable2 chunkSize traders)[i]?) := by
  have hlen : (constructFilterLiquidatableTraders isLiquidatable chunkSize traders).length =
      (traders.length + chunkSize - 1) / chunkSize := by
    unfold constructFilterLiquidatableTraders
    rw [List.length_map, List.enum_length, chunkList_length chunkSize hcs]
  refine ⟨hlen, ?_, ?_⟩
  · intro i hi
    have hres := constructFilter_getElem? isLiquidatable chunkSize traders hcs i hi
    cases h : isLiquidatable ((traders.drop (i * chunkSize)).take chunkSize) with
    | ok bs =>
      rw [h] at hres
      exact ⟨zipObject ((traders.drop (i * chunkSize)).take chunkSize) bs, hres,
        fun t => aLookup_zipObject_isSome _ bs t⟩
    | error c =>
      rw [h] at hres
      exact hres
  · intro isLiquidatable2 i hi heq
    have hi2 : i <
        (constructFilterLiquidatableTraders isLiquidatable2 chunkSize traders).length := by
      have hlen2 : (constructFilterLiquidatableTraders isLiquidatable2 chunkSize
          traders).length = (traders.length + chunkSize - 1) / chunkSize := by
        unfold constructFilterLiquidatableTraders
        rw [List.length_map, List.enum_length, chunkList_length chunkSize hcs]
      omega
    rw [constructFilter_getElem? isLiquidatable chunkSize traders hcs i hi,
      constructFilter_getElem? isLiquidatable2 chunkSize traders hcs i hi2, heq]

/-- Witness for `checkFilterChunking` at chunk size 2 and three traders. -/
theorem checkFilterChunkingWitness :
    0 < 2 ∧
      (constructFilterLiquidatableTraders
          (fun l => Except.ok (l.map (fun _ => true))) 2 ["a", "b", "c"]).length =
        ((["a", "b", "c"] : List Trader).length + 2 - 1) / 2 :=
  ⟨by decide,
    (checkFilterChunking (fun l => Except.ok (l.map (fun _ => true))) 2
        ["a", "b", "c"] (by decide)).1⟩

/-- C8: rebuilding the active-trader map from a fetched list keeps exactly the
traders of the new list; a trader present before and after keeps its recorded
last-checked-at value (timestamp or `null`), a newly appearing trader starts
at `null`, and a trader absent from the new list is dropped together with its
timestamp. -/
theorem saveActiveTradersRebuild (tsMap : TsMap) (active : List Trader) :
    (∀ t, (aLookup (saveActiveTraders tsMap active) t).isSome = true ↔ t ∈ active)
  ∧ (∀ t v, t ∈ active → aLookup tsMap t = some v →
      aLookup (saveActiveTraders tsMap active) t = some v)
  ∧ (∀ t, t ∈ active → aLookup tsMap t = none →
      aLookup (saveActiveTraders tsMap active) t = some none)
  ∧ (∀ t, t ∉ active → aLookup (saveActiveTraders tsMap active) t = none) := by
  have key : ∀ t, aLookup (saveActiveTraders tsMap active) t =
      if t ∈ active then some ((aLookup tsMap t).getD none) else none := by
    intro t
    unfold saveActiveTraders
    rw [aLookup_objFromEntries,
      lookupLast_map_fun (fun trader => (aLookup tsMap trader).getD none) active t]
  refine ⟨?_, ?_, ?_, ?_⟩
  · intro t
    rw [key t]
    by_cases hmem : t ∈ active <;> simp [hmem]
  · intro t v hmem hv
    rw [key t, if_pos hmem, hv]
    rfl
  · intro t hmem hv
    rw [key t, if_pos hmem, hv]
    rfl
  · intro t hmem
    rw [key t, if_neg hmem]

/-- Witness for `saveActiveTradersRebuild`: kept, fresh and dropped traders on
a concrete rebuild. -/
theorem saveActiveTradersRebuildWitness :
    aLookup (saveActiveTraders [("t1", some 7), ("t2", none)] ["t1", "t3"]) "t1" =
        some (some 7)
  ∧ aLookup (saveActiveTraders [("t1", some 7), ("t2", none)] ["t1", "t3"]) "t3" =
        some none
  ∧ aLookup (saveActiveTraders [("t1", some 7), ("t2", none)] ["t1", "t3"]) "t2" =
        none :=
  ⟨(saveActiveTradersRebuild [("t1", some 7), ("t2", none)] ["t1", "t3"]).2.1
      "t1" (some 7) (by decide) (by decide),
    (saveActiveTradersRebuild [("t1", some 7), ("t2", none)] ["t1", "t3"]).2.2.1
      "t3" (by decide) (by decide),
    (saveActiveTradersRebuild [("t1", some 7), ("t2", none)] ["t1", "t3"]).2.2.2
      "t2" (by decide)⟩

/-! ## Lemmas on the checker entry loop -/

theorem processEntry_skip (T : Nat) (acc : EntryAccum) (e : Trader × Bool)
    (h : skipGuard (aLookup acc.tsMap e.1) T = true) :
    processEntry T acc e = acc := by
  unfold processEntry
  rw [if_pos h]

theorem processEntry_fresh (T : Nat) (acc : EntryAccum) (e : Trader × Bool)
    (h : skipGuard (aLookup acc.tsMap e.1) T = false) :
    processEntry T acc e =
      { tsMap := objSet acc.tsMap e.1 (some T)
        newLiquidatable :=
          if e.2 then acc.newLiquidatable ++ [e.1] else acc.newLiquidatable
        hadNewData := true } := by
  unfold processEntry
  rw [if_neg (by simp [h])]

theorem hadNewData_foldl_mono (T : Nat) :
    ∀ (es : List (Trader × Bool)) (acc : EntryAccum), acc.hadNewData = true →
      (es.foldl (processEntry T) acc).hadNewData = true
  | [], acc, h => h
  | e :: rest, acc, h => by
    rw [List.foldl_cons]
    apply hadNewData_foldl_mono T rest
    by_cases hg : skipGuard (aLookup acc.tsMap e.1) T = true
    · rw [processEntry_skip T acc e hg]
      exact h
    · rw [processEntry_fresh T acc e (by simpa using hg)]

theorem hadNewData_foldl_false (T : Nat) :
    ∀ (es : List (Trader × Bool)) (tsMap : TsMap) (nl : List Trader),
      (es.foldl (processEntry T) ⟨tsMap, nl, false⟩).hadNewData
        = es.any (fun e => staleAt tsMap e.1 T)
  | [], tsMap, nl => rfl
  | e :: rest, tsMap, nl => by
    rw [List.foldl_cons, List.any_cons]
    by_cases hg : skipGuard (aLookup tsMap e.1) T = true
    · rw [processEntry_skip T ⟨tsMap, nl, false⟩ e hg,
        hadNewData_foldl_false T rest tsMap nl]
      simp [staleAt, hg]
    · rw [processEntry_fresh T ⟨tsMap, nl, false⟩ e (by simpa using hg)]
      rw [hadNewData_foldl_mono T rest _ rfl]
      simp [staleAt, by simpa using hg]

/-- C5 (amended): the checker yields a (possibly empty) trader list for a
`CheckResult` exactly when that result contained at least one entry whose
trader was stale for this pass (`hadNewData`); a `CheckError` is yielded
immediately, before any trader list of the same result. -/
theorem forwardListEmissionCondition (T : Nat) (tsMap : TsMap) (res : CheckResult) :
    ((∃ l, CheckerOutput.traders l ∈ (processCheckResult T tsMap res).2) ↔
      (checkedEntries res).any (fun e => staleAt tsMap e.1 T) = true)
  ∧ (match res with
     | CheckResult.err e =>
       ((processCheckResult T tsMap res).2).head? = some (CheckerOutput.error e)
     | CheckResult.ok _ => True) := by
  have hout : (processCheckResult T tsMap res).2 =
      (match res with
       | CheckResult.err e => [CheckerOutput.error e]
       | CheckResult.ok _ => []) ++
      (if ((checkedEntries res).foldl (processEntry T) ⟨tsMap, [], false⟩).hadNewData
       then [CheckerOutput.traders
          ((checkedEntries res).foldl (processEntry T)
            ⟨tsMap, [], false⟩).newLiquidatable]
       else []) := rfl
  constructor
  · rw [hout, ← hadNewData_foldl_false T (checkedEntries res) tsMap []]
    cases hH : ((checkedEntries res).foldl (processEntry T)
        ⟨tsMap, [], false⟩).hadNewData with
    | true =>
      rw [if_pos rfl]
      exact iff_of_true ⟨_, List.mem_append_right _ (List.mem_singleton.mpr rfl)⟩ rfl
    | false =>
      rw [if_neg (by simp), List.append_nil]
      simp only [Bool.false_eq_true, iff_false]
      rintro ⟨l, hl⟩
      cases res with
      | ok checks => simp at hl
      | err e => simp at hl
  · cases res with
    | ok checks => trivial
    | err e => rw [hout]; rfl

/-- C5 (counterexample): a pass over an unchecked active trader whose check
result is `false` yields an empty trader list downstream — the claim that an
empty forwarded list is never emitted on the trader channel is false. -/
theorem emptyForwardListEmitted :
    (processCheckResult 100 [("t1", (none : Option Nat))]
        (CheckResult.ok [("t1", false)])).2 = [CheckerOutput.traders []] := by
  decide

/-- C1: evaluation of the checker loop body on a pass that yields a single
`CheckError`.  Because the source lacks a `continue` after
`yield checkedTraders`, the error object's own enumerable fields are processed
as (trader, isLiquidatable) entries: the pseudo-traders are inserted into the
per-trader timestamp map and the truthy-valued ones are forwarded downstream
as liquidatable traders, violating the claimed invariant. -/
theorem checkErrorEntriesLeakIntoCheckerState :
    runCheckerPass 100 [("t1", (none : Option Nat))]
        [CheckResult.err ⟨["t1"], 0, 1, "boom"⟩] =
      ([("t1", none), ("traders", some 100), ("offset", some 100),
        ("total", some 100), ("cause", some 100)],
       [CheckerOutput.error ⟨["t1"], 0, 1, "boom"⟩,
        CheckerOutput.traders ["traders", "total", "cause"]]) := by
  decide

/-- C7: the checker freshness guard on a single (trader, isLiquidatable)
entry, for a pass timestamp `T > 0` (the value of `Date.now()` is always
positive).  The entry updates the trader's last-checked-at to `T` — and
forwards the trader exactly when it is liquidatable — precisely when the
recorded value is absent, `null`, or strictly older than `T`; a result whose
pass timestamp is equal to or older than the recorded value changes nothing,
so of two overlapping passes only the later one's verdict is retained. -/
theorem checkerFreshnessGuard (tsMap : TsMap) (t : Trader) (b : Bool) (T : Nat)
    (hT : 0 < T) :
    (staleAt tsMap t T = true →
      aLookup (processCheckResult T tsMap (CheckResult.ok [(t, b)])).1 t =
          some (some T) ∧
        (processCheckResult T tsMap (CheckResult.ok [(t, b)])).2 =
          [CheckerOutput.traders (if b then [t] else [])])
  ∧ ((∃ n, aLookup tsMap t = some (some n) ∧ T ≤ n) →
      processCheckResult T tsMap (CheckResult.ok [(t, b)]) = (tsMap, []))
  ∧ (staleAt tsMap t T = true ↔
      (aLookup tsMap t = none ∨ aLookup tsMap t = some none ∨
        ∃ n, aLookup tsMap t = some (some n) ∧ n < T)) := by
  refine ⟨?_, ?_, ?_⟩
  · intro hstale
    have hg : skipGuard (aLookup tsMap t) T = false := by
      have := hstale
      unfold staleAt at this
      simpa using this
    have hfold : (checkedEntries (CheckResult.ok [(t, b)])).foldl (processEntry T)
        ⟨tsMap, [], false⟩ =
        { tsMap := objSet tsMap t (some T)
          newLiquidatable := if b then [t] else []
          hadNewData := true } := by
      show processEntry T ⟨tsMap, [], false⟩ (t, b) = _
      rw [processEntry_fresh T ⟨tsMap, [], false⟩ (t, b) hg]
      cases b <;> rfl
    constructor
    · simp only [processCheckResult]
      rw [hfold]
      show aLookup (objSet tsMap t (some T)) t = some (some T)
      rw [aLookup_objSet tsMap t (some T) t, if_pos rfl]
    · simp only [processCheckResult]
      rw [hfold]
      rfl
  · rintro ⟨n, hn, hTn⟩
    have hg : skipGuard (aLookup tsMap t) T = true := by
      rw [hn]
      unfold skipGuard
      simp only [Bool.and_eq_true, decide_eq_true_eq]
      omega
    have hfold : (checkedEntries (CheckResult.ok [(t, b)])).foldl (processEntry T)
        ⟨tsMap, [], false⟩ = ⟨tsMap, [], false⟩ := by
      show processEntry T ⟨tsMap, [], false⟩ (t, b) = _
      exact processEntry_skip T ⟨tsMap, [], false⟩ (t, b) hg
    simp only [processCheckResult]
    rw [hfold]
    rfl
  · unfold staleAt skipGuard
    cases hlook : aLookup tsMap t with
    | none => simp
    | some v =>
      cases v with
      | none => simp
      | some n =>
        simp only [Bool.not_eq_true', Bool.and_eq_false_iff, decide_eq_false_iff_not,
          Decidable.not_not, Option.some.injEq, reduceCtorEq, false_or]
        constructor
        · rintro (h0 | hlt)
          · exact ⟨n, rfl, by omega⟩
          · exact ⟨n, rfl, by simpa using hlt⟩
        · rintro ⟨m, hm, hmT⟩
          cases hm
          right
          simpa using hmT

/-- Witness for `checkerFreshnessGuard`: a recorded timestamp 5, a pass at
timestamp 10. -/
theorem checkerFreshnessGuardWitness :
    0 < 10 ∧
      (staleAt [("t1", some 5)] "t1" 10 = true ↔
        (aLookup [("t1", some 5)] "t1" = none ∨
          aLookup [("t1", some 5)] "t1" = some none ∨
          ∃ n, aLookup [("t1", some 5)] "t1" = some (some n) ∧ n < 10)) :=
  ⟨by decide, (checkerFreshnessGuard [("t1", some 5)] "t1" true 10 (by decide)).2.2⟩

/-! ## Lemmas on the re-validation of failed traders -/

theorem runRace_eq (numProviders : Nat) :
    ∀ (events : List FilterEvent) (st : RaceState),
      runRace numProviders events st =
        ((events.take (incorporatedCount numProviders events st)).foldl applyEvent st,
         events.drop (incorporatedCount numProviders events st))
  | [], st => rfl
  | FilterEvent.arrive i r :: rest, st => by
    show runRace numProviders rest (applyChunk st i r) = _
    rw [runRace_eq numProviders rest (applyChunk st i r)]
    have hK : incorporatedCount numProviders (FilterEvent.arrive i r :: rest) st =
        incorporatedCount numProviders rest (applyChunk st i r) + 1 := by
      show 1 + incorporatedCount numProviders rest (applyChunk st i r) = _
      rw [Nat.add_comm]
    rw [hK]
    rfl
  | FilterEvent.settle i :: rest, st => by
    show (if st.processed + 1 = numProviders ∨ i ∈ st.gotOk
        then ({ st with processed := st.processed + 1 }, rest)
        else runRace numProviders rest { st with processed := st.processed + 1 }) = _
    by_cases hres : st.processed + 1 = numProviders ∨ i ∈ st.gotOk
    · rw [if_pos hres]
      have hK : incorporatedCount numProviders (FilterEvent.settle i :: rest) st = 1 := by
        show 1 + (if st.processed + 1 = numProviders ∨ i ∈ st.gotOk then 0
            else incorporatedCount numProviders rest
              { st with processed := st.processed + 1 }) = 1
        rw [if_pos hres]
      rw [hK]
      rfl
    · rw [if_neg hres]
      rw [runRace_eq numProviders rest { st with processed := st.processed + 1 }]
      have hK : incorporatedCount numProviders (FilterEvent.settle i :: rest) st =
          incorporatedCount numProviders rest { st with processed := st.processed + 1 }
            + 1 := by
        show 1 + (if st.processed + 1 = numProviders ∨ i ∈ st.gotOk then 0
            else incorporatedCount numProviders rest
              { st with processed := st.processed + 1 }) = _
        rw [if_neg hres, Nat.add_comm]
      rw [hK]
      rfl

theorem mem_applyEvent (st : RaceState) (ev : FilterEvent) (t : Trader) :
    t ∈ (applyEvent st ev).nonLiquidatable ↔
      t ∈ st.nonLiquidatable ∧ eventReportsTrue ev t = false := by
  cases ev with
  | settle i => simp [applyEvent, eventReportsTrue]
  | arrive i r =>
    cases r with
    | err e => simp [applyEvent, applyChunk, eventReportsTrue]
    | ok checks =>
      simp only [applyEvent, applyChunk, eventReportsTrue, List.mem_filter,
        Bool.not_eq_true']

theorem mem_foldl_applyEvent (t : Trader) :
    ∀ (evs : List FilterEvent) (st : RaceState),
      t ∈ ((evs.foldl applyEvent st).nonLiquidatable) ↔
        t ∈ st.nonLiquidatable ∧ ∀ ev ∈ evs, eventReportsTrue ev t = false
  | [], st => by simp
  | ev :: rest, st => by
    rw [List.foldl_cons, mem_foldl_applyEvent t rest (applyEvent st ev),
      mem_applyEvent st ev t]
    constructor
    · rintro ⟨⟨h1, h2⟩, h3⟩
      refine ⟨h1, ?_⟩
      intro q hq
      rcases List.mem_cons.mp hq with hq | hq
      · exact hq ▸ h2
      · exact h3 q hq
    · rintro ⟨h1, h2⟩
      exact ⟨⟨h1, h2 ev (List.mem_cons_self ev rest)⟩,
        fun q hq => h2 q (List.mem_cons_of_mem ev hq)⟩

theorem resolvesAfter_cons (numProviders : Nat) (ev : FilterEvent)
    (rest : List FilterEvent) (st : RaceState) (j : Nat) :
    resolvesAfter numProviders (ev :: rest) st (j + 1) ↔
      resolvesAfter numProviders rest (applyEvent st ev) j := by
  unfold resolvesAfter
  rw [List.getElem?_cons_succ, List.take_succ_cons, List.foldl_cons]

theorem not_resolvesAfter_nil (numProviders : Nat) (st : RaceState) (j : Nat) :
    ¬ resolvesAfter numProviders [] st j := by
  unfold resolvesAfter
  simp

theorem not_resolvesAfter_arrive_zero (numProviders : Nat) (i : Nat)
    (r : CheckResult) (rest : List FilterEvent) (st : RaceState) :
    ¬ resolvesAfter numProviders (FilterEvent.arrive i r :: rest) st 0 := by
  unfold resolvesAfter
  simp

theorem resolvesAfter_settle_zero (numProviders : Nat) (i : Nat)
    (rest : List FilterEvent) (st : RaceState) :
    resolvesAfter numProviders (FilterEvent.settle i :: rest) st 0 ↔
      (st.processed + 1 = numProviders ∨ i ∈ st.gotOk) := by
  unfold resolvesAfter
  simp

theorem incorporatedCount_char (numProviders : Nat) :
    ∀ (events : List FilterEvent) (st : RaceState),
      (incorporatedCount numProviders events st = events.length ∧
        ∀ j, ¬ resolvesAfter numProviders events st j) ∨
      (∃ jlast,
        incorporatedCount numProviders events st = jlast + 1 ∧
        resolvesAfter numProviders events st jlast ∧
        ∀ j, j < jlast → ¬ resolvesAfter numProviders events st j)
  | [], st => Or.inl ⟨rfl, not_resolvesAfter_nil numProviders st⟩
  | FilterEvent.arrive i r :: rest, st => by
    rcases incorporatedCount_char numProviders rest (applyChunk st i r) with
      ⟨hK, hno⟩ | ⟨jl, hK, hres, hmin⟩
    · left
      constructor
      · show 1 + incorporatedCount numProviders rest (applyChunk st i r) =
          (FilterEvent.arrive i r :: rest).length
        rw [hK, List.length_cons, Nat.add_comm]
      · intro j
        cases j with
        | zero => exact not_resolvesAfter_arrive_zero numProviders i r rest st
        | succ j' =>
          rw [resolvesAfter_cons]
          exact hno j'
    · right
      refine ⟨jl + 1, ?_, ?_, ?_⟩
      · show 1 + incorporatedCount numProviders rest (applyChunk st i r) = jl + 1 + 1
        rw [hK, Nat.add_comm]
      · rw [resolvesAfter_cons]
        exact hres
      · intro j hj
        cases j with
        | zero => exact not_resolvesAfter_arrive_zero numProviders i r rest st
        | succ j' =>
          rw [resolvesAfter_cons]
          exact hmin j' (by omega)
  | FilterEvent.settle i :: rest, st => by
    by_cases hcond : st.processed + 1 = numProviders ∨ i ∈ st.gotOk
    · right
      refine ⟨0, ?_, ?_, ?_⟩
      · show 1 + (if st.processed + 1 = numProviders ∨ i ∈ st.gotOk then 0
            else incorporatedCount numProviders rest
              { st with processed := st.processed + 1 }) = 0 + 1
        rw [if_pos hcond]
      · exact (resolvesAfter_settle_zero numProviders i rest st).mpr hcond
      · intro j hj
        exact absurd hj (Nat.not_lt_zero j)
    · rcases incorporatedCount_char numProviders rest
          { st with processed := st.processed + 1 } with
        ⟨hK, hno⟩ | ⟨jl, hK, hres, hmin⟩
      · left
        constructor
        · show 1 + (if st.processed + 1 = numProviders ∨ i ∈ st.gotOk then 0
              else incorporatedCount numProviders rest
                { st with processed := st.processed + 1 }) =
            (FilterEvent.settle i :: rest).length
          rw [if_neg hcond, hK, List.length_cons, Nat.add_comm]
        · intro j
          cases j with
          | zero =>
            intro h
            exact hcond ((resolvesAfter_settle_zero numProviders i rest st).mp h)
          | succ j' =>
            rw [resolvesAfter_cons]
            exact hno j'
      · right
        refine ⟨jl + 1, ?_, ?_, ?_⟩
        · show 1 + (if st.processed + 1 = numProviders ∨ i ∈ st.gotOk then 0
              else incorporatedCount numProviders rest
                { st with processed := st.processed + 1 }) = jl + 1 + 1
          rw [if_neg hcond, hK, Nat.add_comm]
        · rw [resolvesAfter_cons]
          exact hres
        · intro j hj
          cases j with
          | zero =>
            intro h
            exact hcond ((resolvesAfter_settle_zero numProviders i rest st).mp h)
          | succ j' =>
            rw [resolvesAfter_cons]
            exact hmin j' (by omega)

/-- C3 (counterexample): the failed trader "t1" is re-checked by a single
provider whose stream yields one `CheckError` and completes — no successful
answer at all.  The promise resolves at the settle (`allProcessed`) with "t1"
still in `nonLiquidatableTraders`, and the liquidation loop then deletes it
from the `LiquidatableTraderSet` — the claim that the trader is conservatively
kept when all providers fail is false. -/
theorem allProvidersFailDropsTrader :
    (filterNonLiquidatableTraders ["t1"] 1
        [FilterEvent.arrive 0 (CheckResult.err ⟨["t1"], 0, 1, "boom"⟩),
         FilterEvent.settle 0]).nonLiquidatable = ["t1"]
  ∧ removeNonLiquidatable ["t1"]
      (filterNonLiquidatableTraders ["t1"] 1
        [FilterEvent.arrive 0 (CheckResult.err ⟨["t1"], 0, 1, "boom"⟩),
         FilterEvent.settle 0]).nonLiquidatable = [] := by
  constructor <;> decide

/-- C3 (amended): after the re-validation following a failed cycle, a failed
trader stays in `nonLiquidatableTraders` (and is therefore removed from the
`LiquidatableTraderSet`) exactly when no successful chunk answer incorporated
before the combined check resolved reported it liquidatable; answers count as
soon as they arrive, also from providers whose pass is still in flight at
resolution time.  In particular a trader is kept in the set exactly when some
incorporated answer reported `true` for it, and when every provider fails
without a single successful answer, every failed trader is removed, not
kept. -/
theorem revalidationMembership (traders : List Trader) (numProviders : Nat)
    (events : List FilterEvent) (t : Trader) :
    t ∈ (filterNonLiquidatableTraders traders numProviders events).nonLiquidatable ↔
      (t ∈ traders ∧
        ∀ ev ∈ events.take
            (incorporatedCount numProviders events ⟨traders, [], [], 0⟩),
          eventReportsTrue ev t = false) := by
  unfold filterNonLiquidatableTraders
  rw [runRace_eq numProviders events ⟨traders, [], [], 0⟩]
  exact mem_foldl_applyEvent t
    (events.take (incorporatedCount numProviders events ⟨traders, [], [], 0⟩))
    ⟨traders, [], [], 0⟩

/-- Witness for `revalidationMembership`: a provider that answered `false`
keeps the trader in the non-liquidatable result. -/
theorem revalidationMembershipWitness :
    "t1" ∈ (filterNonLiquidatableTraders ["t1"] 1
        [FilterEvent.arrive 0 (CheckResult.ok [("t1", false)]),
         FilterEvent.settle 0]).nonLiquidatable :=
  (revalidationMembership ["t1"] 1
      [FilterEvent.arrive 0 (CheckResult.ok [("t1", false)]),
       FilterEvent.settle 0] "t1").mpr ⟨by decide, by decide⟩

/-- C6 (counterexample): two providers re-check "t1" and "t2" with chunk size
1.  Provider 0's stream yields one successful and one failed chunk and settles
first; provider 1's successful chunk reporting "t2" liquidatable arrives after
that settle.  The code resolves at provider 0's settle — a pass with some
non-error result but not an error-free one — returning
`nonLiquidatableTraders = [t1, t2]`, while the claimed completion rule (first
full error-free pass, here provider 1's, or all providers done) incorporates
provider 1's answer and yields `[t1]`.  The claim's resolution rule is false
of the code. -/
theorem resolveOnPartialPass :
    (filterNonLiquidatableTraders ["t1", "t2"] 2
        [FilterEvent.arrive 0 (CheckResult.ok [("t1", false)]),
         FilterEvent.arrive 0 (CheckResult.err ⟨["t2"], 1, 2, "E"⟩),
         FilterEvent.settle 0,
         FilterEvent.arrive 1 (CheckResult.ok [("t2", true)]),
         FilterEvent.settle 1]).nonLiquidatable = ["t1", "t2"]
  ∧ specIncorporatedCount 2
        [FilterEvent.arrive 0 (CheckResult.ok [("t1", false)]),
         FilterEvent.arrive 0 (CheckResult.err ⟨["t2"], 1, 2, "E"⟩),
         FilterEvent.settle 0,
         FilterEvent.arrive 1 (CheckResult.ok [("t2", true)]),
         FilterEvent.settle 1] [] 0 = 5
  ∧ (([FilterEvent.arrive 0 (CheckResult.ok [("t1", false)]),
       FilterEvent.arrive 0 (CheckResult.err ⟨["t2"], 1, 2, "E"⟩),
       FilterEvent.settle 0,
       FilterEvent.arrive 1 (CheckResult.ok [("t2", true)]),
       FilterEvent.settle 1].take 5).foldl applyEvent
      ⟨["t1", "t2"], [], [], 0⟩).nonLiquidatable = ["t1"] := by
  refine ⟨by decide, by decide, by decide⟩

/-- C6 (amended): the combined re-check resolves exactly when the first of
these occurs: (a) a provider's stream completes having produced at least one
successful (non-error) chunk result — its pass need not be error-free — or
(b) every provider's stream has completed; when no stream completion satisfies
either rule the promise never resolves (the model then consumes the whole
execution).  The returned decision is the shared state at the resolution
point: it incorporates exactly the chunk results that arrived before it,
including those of providers still mid-pass, while the events still pending at
that point are returned unconsumed and are not incorporated into the
decision. -/
theorem filterResolutionCharacterization (traders : List Trader)
    (numProviders : Nat) (events : List FilterEvent) :
    (filterNonLiquidatableTraders traders numProviders events =
        (events.take
            (incorporatedCount numProviders events ⟨traders, [], [], 0⟩)).foldl
          applyEvent ⟨traders, [], [], 0⟩)
  ∧ ((runRace numProviders events ⟨traders, [], [], 0⟩).2 =
      events.drop (incorporatedCount numProviders events ⟨traders, [], [], 0⟩))
  ∧ ((incorporatedCount numProviders events ⟨traders, [], [], 0⟩ = events.length ∧
        ∀ j, ¬ resolvesAfter numProviders events ⟨traders, [], [], 0⟩ j) ∨
      (∃ jlast,
        incorporatedCount numProviders events ⟨traders, [], [], 0⟩ = jlast + 1 ∧
        resolvesAfter numProviders events ⟨traders, [], [], 0⟩ jlast ∧
        ∀ j, j < jlast →
          ¬ resolvesAfter numProviders events ⟨traders, [], [], 0⟩ j)) := by
  refine ⟨?_, ?_, incorporatedCount_char numProviders events ⟨traders, [], [], 0⟩⟩
  · unfold filterNonLiquidatableTraders
    rw [runRace_eq numProviders events ⟨traders, [], [], 0⟩]
  · rw [runRace_eq numProviders events ⟨traders, [], [], 0⟩]

/-- Witness for `filterResolutionCharacterization` at a one-provider
execution. -/
theorem filterResolutionCharacterizationWitness :
    filterNonLiquidatableTraders ["t1"] 1 [FilterEvent.settle 0] =
      ([FilterEvent.settle 0].take
          (incorporatedCount 1 [FilterEvent.settle 0] ⟨["t1"], [], [], 0⟩)).foldl
        applyEvent ⟨["t1"], [], [], 0⟩ :=
  (filterResolutionCharacterization ["t1"] 1 [FilterEvent.settle 0]).1

/-- C4: the pause the liquidation loop requests after a cycle with one failed
liquidation, at the default configuration `liquidatorRetryIntervalSec = 1`.
The loop passes the configured value itself to `setTimeout` of
`node:timers/promises`, whose delay argument is in milliseconds — so the pause
is 1 millisecond, not the claimed `1 * 1000` milliseconds (the checker loop,
by contrast, multiplies its interval by 1000).  A cycle without failures
requests no pause. -/
theorem liquidatorPauseMilliseconds :
    liquidatorPauseRequestMs 1 [⟨"t1", "mock liquidate error"⟩] = some 1
  ∧ liquidatorPauseRequestMs 1 [⟨"t1", "mock liquidate error"⟩] ≠ some (1 * 1000)
  ∧ liquidatorPauseRequestMs 1 [] = none
  ∧ checkerPauseRequestMs 1 = 1 * 1000 := by
  refine ⟨by decide, by decide, by decide, by decide⟩

/-- C9: the orchestrator lifecycle.  `start` throws exactly when a session is
running and otherwise starts one with a fresh (untriggered) cancellation
signal; `stop` throws its not-running error exactly when no session is
running, and on a running session triggers the signal, emits `botStopped`,
detaches every listener and resets to idle when the pipeline ends in the
cancellation abort, while any other pipeline error propagates out of `stop`;
after a completed stop, `start` succeeds again. -/
theorem botLifecycle (s : BotModuleState) (e : String) :
    ((startBot s = Except.error startAlreadyRunningMsg) ↔ s.running = true)
  ∧ (s.running = false →
      startBot s = Except.ok { running := true, abortRequested := false })
  ∧ ((stopBot s PipelineOutcome.aborted = Except.error stopNotRunningMsg) ↔
      s.running = false)
  ∧ (s.running = true →
      stopBot s PipelineOutcome.aborted =
        Except.ok ({ running := false, abortRequested := true },
          [BotEvent.botStopped], true))
  ∧ (s.running = true →
      stopBot s (PipelineOutcome.failed e) = Except.error e)
  ∧ startBot { running := false, abortRequested := true } =
      Except.ok { running := true, abortRequested := false } := by
  cases s with
  | mk running abortRequested =>
    cases running <;>
      simp [startBot, stopBot, pipelineSettle, startAlreadyRunningMsg,
        stopNotRunningMsg]

/-- Witness for `botLifecycle`: stopping a running session on the abort path. -/
theorem botLifecycleWitness :
    (({ running := true, abortRequested := false } : BotModuleState).running = true)
  ∧ stopBot { running := true, abortRequested := false } PipelineOutcome.aborted =
      Except.ok ({ running := false, abortRequested := true },
        [BotEvent.botStopped], true) :=
  ⟨rfl,
    (botLifecycle { running := true, abortRequested := false } "x").2.2.2.1 rfl⟩

/-! ## Lemmas on the liquidation loop protocol -/

theorem setAddAll_extends :
    ∀ (batch s : List Trader), ∃ tail, setAddAll s batch = s ++ tail
  | [], s => ⟨[], by simp [setAddAll]⟩
  | t :: rest, s => by
    show ∃ tail, setAddAll (if t ∈ s then s else s ++ [t]) rest = s ++ tail
    by_cases hmem : t ∈ s
    · rw [if_pos hmem]
      exact setAddAll_extends rest s
    · rw [if_neg hmem]
      obtain ⟨tail, htail⟩ := setAddAll_extends rest (s ++ [t])
      exact ⟨[t] ++ tail, by rw [htail, List.append_assoc]⟩

theorem setAddAll_ne_nil (batch s : List Trader) (hs : s ≠ []) :
    setAddAll s batch ≠ [] := by
  obtain ⟨tail, htail⟩ := setAddAll_extends batch s
  rw [htail]
  intro hcontra
  exact hs (List.append_eq_nil.mp hcontra).1

theorem liqReachable_postWake_nonempty (s : LiqLoopState) (hs : LiqReachable s) :
    s.pc = LoopPC.postWake → s.liquidatable ≠ [] := by
  induction hs with
  | init => intro h; exact absurd h (by simp)
  | step hreach hstep ih =>
    rename_i s0 s1 ev
    intro h
    cases hstep with
    | write incoming =>
      show setAddAll s0.liquidatable incoming ≠ []
      by_cases hcond :
          s0.pc = LoopPC.suspended ∧ setAddAll s0.liquidatable incoming ≠ []
      · exact hcond.2
      · have hsame : (saveLiquidatableTraders s0 incoming).pc = s0.pc := by
          unfold saveLiquidatableTraders
          simp only [if_neg hcond]
        have hpc0 : s0.pc = LoopPC.postWake := by
          rw [← hsame]
          exact h
        exact setAddAll_ne_nil incoming s0.liquidatable (ih hpc0)
    | loopSuspend hpc0 hempty => exact absurd h (by simp)
    | loopFire hpc0 hne => exact absurd h (by simp)
    | loopFireWoken hpc0 => exact absurd h (by simp)
    | loopFinish batch removed hpc0 => exact absurd h (by simp)

/-- C10: along every run of the liquidator processor from its start state, the
batch of every `exchangeService.liquidate` call is non-empty: the loop
suspends while the set is empty, is only woken by a write that left the set
non-empty, writes only ever add traders, and only the loop itself removes
them. -/
theorem liquidateBatchNonempty (s : LiqLoopState) (hs : LiqReachable s)
    (batch : List Trader) (s' : LiqLoopState)
    (hstep : LiqStep s (some batch) s') : batch ≠ [] := by
  cases hstep with
  | loopFire hpc hne => exact hne
  | loopFireWoken hpc => exact liqReachable_postWake_nonempty s hs hpc

/-- Witness for `liquidateBatchNonempty`: a concrete two-step run — a write of
trader "t1" into the idle processor, then the loop's liquidate call. -/
theorem liquidateBatchNonemptyWitness :
    LiqReachable ⟨["t1"], LoopPC.atLoopTop⟩ ∧ (["t1"] : List Trader) ≠ [] := by
  have h1 : saveLiquidatableTraders ⟨[], LoopPC.atLoopTop⟩ ["t1"] =
      ⟨["t1"], LoopPC.atLoopTop⟩ := by decide
  have hr : LiqReachable ⟨["t1"], LoopPC.atLoopTop⟩ :=
    h1 ▸ LiqReachable.step LiqReachable.init
      (LiqStep.write ⟨[], LoopPC.atLoopTop⟩ ["t1"])
  refine ⟨hr, ?_⟩
  exact liquidateBatchNonempty ⟨["t1"], LoopPC.atLoopTop⟩ hr ["t1"]
    ⟨["t1"], LoopPC.inFlight ["t1"]⟩
    (LiqStep.loopFire ⟨["t1"], LoopPC.atLoopTop⟩ rfl (by decide))
